import Mathlib

/-!
# SoundManager: the position codec and the sound player of `src/soundplayer.cc`

A shallow embedding of `soundplayer.cc`.  Unsigned 64-bit values (`u64`) are natural
numbers, reduced modulo `2 ^ 64` wherever the C++ arithmetic can wrap.  The player object
is a record of its members; the sink (`_pcm`) and the streams are external collaborators,
given by the answers they return, and the calls made on the sink are recorded in a log.
-/

namespace SoundManager

/-- The modulus of unsigned 64-bit arithmetic (`u64`, `unsigned long long`). -/
def U64 : Nat := 2 ^ 64

/-! ## Position codec (`soundplayer.cc`, lines 5-16) -/

/-- Modelled from the spec: the declaration of `SoundStreamPos` (in `soundplayer.h`) is not
among the sources.  The three members are taken as unsigned 64-bit integers, the type of
the seconds count they are all derived from; a member holds a natural number below
`2 ^ 64`. -/
structure SoundStreamPos where
  hour : Nat
  minute : Nat
  second : Nat
  deriving DecidableEq, Repr

namespace SoundStreamPos

/-- The members of the position are representable as unsigned 64-bit integers. -/
def IsU64 (p : SoundStreamPos) : Prop :=
  p.hour < U64 ∧ p.minute < U64 ∧ p.second < U64

instance (p : SoundStreamPos) : Decidable p.IsU64 := by
  unfold IsU64; infer_instance

/-- Line by line, `SoundStreamPos::fromSeconds(u64 seconds)`:
`pos.second = seconds % 60; pos.minute = seconds / 60; pos.hour = pos.minute / 60;`
`pos.minute = pos.minute % 60;`.  No operation can exceed its operand, so nothing wraps. -/
def fromSeconds (seconds : Nat) : SoundStreamPos :=
  let second := seconds % 60
  let minute := seconds / 60
  let hour := minute / 60
  let minute := minute % 60
  { hour := hour, minute := minute, second := second }

/-- The C++ `SoundStreamPos::toSeconds()`: `hour * 3600ULL + minute * 60ULL + second`,
computed in `unsigned long long`, hence modulo `2 ^ 64`. -/
def toSeconds (p : SoundStreamPos) : Nat :=
  (p.hour * 3600 + p.minute * 60 + p.second) % U64

end SoundStreamPos

/-! ## The collaborators of the player -/

/-- A stream pointer (`_raw_stream`, and the entries of `_stream_stack`): `none` is
`nullptr`, `some r` points to the stream object number `r`. -/
abbrev StreamPtr := Option Nat

/-- Modelled from the spec: the stream class (`soundstream.h`) is not among the sources.
This is the interface the player calls, over the state `σ` of a stream object:
`read(buffer, size)` gives the bytes actually read and the stream afterwards, `pos()` and
`total()` are counts of seconds, taken as unsigned 64-bit like the `currentSecond()` and
`totalSeconds()` of the player that return them. -/
structure SoundStream (σ : Type) where
  byte_rate : σ → Nat
  block_align : σ → Nat
  channels : σ → Nat
  sample_rate : σ → Nat
  bits_per_sample : σ → Nat
  read : σ → Nat → Nat × σ
  pos : σ → Nat
  total : σ → Nat
  setPos : σ → Nat → σ

/-- The sample formats `generateHwParams` chooses between. -/
inductive Format where
  | FORMAT_U8
  | FORMAT_S16_LE
  deriving DecidableEq, Repr

/-- Modelled from the spec: the sink class (`snd::pcm`) is not among the sources.  The sink
is given by its answers: `open_ok k name` is what the call number `k` of `open(name)`
returns, `prepare_ok k` what the call number `k` of `prepare()` returns, and
`writei k start frames` what the call number `k` of `writei(start, frames)` returns (frames
written, or a negative error code), `start` being the offset into the buffer. -/
structure Pcm where
  open_ok : Nat → String → Bool
  error_msg : String
  prepare_ok : Nat → Bool
  writei : Nat → Int → Int → Int
  bytes_to_frames : Nat → Int

/-- Modelled from the spec: the hardware parameter object (`snd::pcm::HardwareParams`) is
not among the sources.  Each setter is given by its answer to the value requested;
`error_msg i` is the message the object reports after setter number `i` refused. -/
structure HardwareParams where
  set_access : Bool
  set_channels : Nat → Bool
  set_format : Format → Bool
  set_rate_near : Nat → Bool
  set_buffer_time_near : Nat → Bool
  set_buffer_size_near : Nat → Bool
  error_msg : Nat → String

/-- The underrun code of the sink: `writei` returns `-EPIPE`. -/
def EPIPE : Int := 32

/-- The calls made on `_pcm` so far: how many times `open`, `close`, `prepare` and
`set_hw_params` were called, and the values `writei` returned, latest first. -/
structure PcmLog where
  opens : Nat
  closes : Nat
  prepares : Nat
  hw_params_sets : Nat
  writes : List Int
  deriving DecidableEq, Repr

/-! ## The player -/

/-- The members of `SoundPlayer`, the log of its sink, the state of its thread handle
(`_player_play_thread.joinable()`, whether the background task is still running, how many
tasks were spawned) and the stream objects its pointers refer to. -/
structure SoundPlayer (σ : Type) where
  player_playing : Bool
  player_paused : Bool
  player_name : String
  player_err_msg : String
  raw_stream : StreamPtr
  stream_stack : List StreamPtr
  pcm : PcmLog
  thread_joinable : Bool
  thread_running : Bool
  threads_spawned : Nat
  streams : Nat → σ

/-- The message of `start()` on a playing player. -/
def MSG_PLAYING : String := "Play is Playing Now"

/-- The message of `start()` and `generateHwParams()` without a stream. -/
def MSG_NOT_SET : String := "Sound Stream Not Set"

/-- The message of a `start()` that went through. -/
def MSG_SUCCESS : String := "Success"

namespace SoundPlayer

variable {σ : Type}

/-- The constructor `SoundPlayer(name)`: not playing, not paused, nothing called on the
sink, no thread.  The active stream is whatever the caller has installed (`raw`). -/
def create (name : String) (raw : StreamPtr) (streams : Nat → σ) : SoundPlayer σ :=
  { player_playing := false, player_paused := false, player_name := name,
    player_err_msg := "", raw_stream := raw, stream_stack := [],
    pcm := { opens := 0, closes := 0, prepares := 0, hw_params_sets := 0, writes := [] },
    thread_joinable := false, thread_running := false, threads_spawned := 0,
    streams := streams }

/-- The C++ `is_playing()`. -/
def is_playing (p : SoundPlayer σ) : Bool := p.player_playing

/-- The C++ `is_paused()`. -/
def is_paused (p : SoundPlayer σ) : Bool := p.player_paused

/-- The C++ `error_msg()`. -/
def error_msg (p : SoundPlayer σ) : String := p.player_err_msg

/-- The C++ `save_stream()`: `if(_raw_stream) _stream_stack.push(_raw_stream);`. -/
def save_stream (p : SoundPlayer σ) : SoundPlayer σ :=
  match p.raw_stream with
  | some r => { p with stream_stack := some r :: p.stream_stack }
  | none => p

/-- The C++ `restore_stream()`: on a non-empty stack the top becomes the active stream and
is popped. -/
def restore_stream (p : SoundPlayer σ) : SoundPlayer σ :=
  match p.stream_stack with
  | [] => p
  | top :: rest => { p with raw_stream := top, stream_stack := rest }

/-- The C++ `generateHwParams(hw)`: without a stream it fails with the message
"Sound Stream Not Set"; otherwise the six setters are called in order and the first
refusal ends the call with the message of `hw`. -/
def generateHwParams (hw : HardwareParams) (strm : SoundStream σ) (p : SoundPlayer σ) :
    Bool × SoundPlayer σ :=
  match p.raw_stream with
  | none => (false, { p with player_err_msg := MSG_NOT_SET })
  | some r =>
    let channels := strm.channels (p.streams r)
    let sample_rate := strm.sample_rate (p.streams r)
    let format := strm.bits_per_sample (p.streams r)
    if !hw.set_access then
      (false, { p with player_err_msg := hw.error_msg 0 })
    else if !hw.set_channels channels then
      (false, { p with player_err_msg := hw.error_msg 1 })
    else if !hw.set_format (if format = 8 then Format.FORMAT_U8 else Format.FORMAT_S16_LE) then
      (false, { p with player_err_msg := hw.error_msg 2 })
    else if !hw.set_rate_near sample_rate then
      (false, { p with player_err_msg := hw.error_msg 3 })
    else if !hw.set_buffer_time_near 50000 then
      (false, { p with player_err_msg := hw.error_msg 4 })
    else if !hw.set_buffer_size_near (strm.byte_rate (p.streams r)) then
      (false, { p with player_err_msg := hw.error_msg 5 })
    else (true, p)

/-- The C++ `start()`, up to the point where the background task is handed to
`_player_play_thread`; the task itself is `play_thread`.  The result is `none` when the
move assignment finds the handle still joinable (`std::terminate`), otherwise the boolean
returned and the player afterwards. -/
def start (pcm : Pcm) (hw : HardwareParams) (strm : SoundStream σ) (p : SoundPlayer σ) :
    Option (Bool × SoundPlayer σ) :=
  if p.player_playing then
    some (false, { p with player_err_msg := MSG_PLAYING })
  else if p.raw_stream = none then
    some (false, { p with player_err_msg := MSG_NOT_SET })
  else
    let opened := pcm.open_ok p.pcm.opens p.player_name
    let p1 := { p with pcm := { p.pcm with opens := p.pcm.opens + 1 } }
    if !opened then
      some (false, { p1 with player_err_msg := pcm.error_msg })
    else
      match generateHwParams hw strm p1 with
      | (false, p2) => some (false, p2)
      | (true, p2) =>
        let p3 := { p2 with pcm := { p2.pcm with hw_params_sets := p2.pcm.hw_params_sets + 1 } }
        let p4 := { p3 with player_playing := true }
        if p4.thread_joinable then none
        else
          some (true, { p4 with thread_joinable := true, thread_running := true,
                                threads_spawned := p4.threads_spawned + 1,
                                player_err_msg := MSG_SUCCESS })

/-- The end of the background task (lines 118-120): `_player_playing = false;`
`_player_paused = false; _pcm.close();`, after which the task is over. -/
def task_exit (p : SoundPlayer σ) : SoundPlayer σ :=
  { p with player_playing := false, player_paused := false,
           pcm := { p.pcm with closes := p.pcm.closes + 1 },
           thread_running := false }

/-- The two assignments of `stop()` (lines 129-130), before the join. -/
def stop_flags (p : SoundPlayer σ) : SoundPlayer σ :=
  { p with player_playing := false, player_paused := false }

/-- The C++ `stop()`: both flags are cleared, then a joinable thread is joined.  The join
returns once the task is over: a task still running reaches its end (`task_exit`). -/
def stop (p : SoundPlayer σ) : SoundPlayer σ :=
  let p1 := stop_flags p
  if p1.thread_joinable then
    let p2 := if p1.thread_running then task_exit p1 else p1
    { p2 with thread_joinable := false }
  else p1

/-- The C++ `pause()`: `if(_raw_stream) _player_paused = true;`. -/
def pause (p : SoundPlayer σ) : SoundPlayer σ :=
  match p.raw_stream with
  | some _ => { p with player_paused := true }
  | none => p

/-- The C++ `resume()`: `if(_raw_stream) _player_paused = false;`. -/
def resume (p : SoundPlayer σ) : SoundPlayer σ :=
  match p.raw_stream with
  | some _ => { p with player_paused := false }
  | none => p

/-- The C++ `currentSecond()`. -/
def currentSecond (strm : SoundStream σ) (p : SoundPlayer σ) : Nat :=
  match p.raw_stream with
  | some r => strm.pos (p.streams r)
  | none => 0

/-- The C++ `setPlayPos(pos)`: `pause()`, then `setPos(pos.toSeconds())` on the active
stream if there is one, then `resume()`. -/
def setPlayPos (strm : SoundStream σ) (pos : SoundStreamPos) (p : SoundPlayer σ) :
    SoundPlayer σ :=
  let p1 := pause p
  let p2 :=
    match p1.raw_stream with
    | some r =>
      { p1 with streams := Function.update p1.streams r (strm.setPos (p1.streams r) pos.toSeconds) }
    | none => p1
  resume p2

/-- The C++ `currentPos()`. -/
def currentPos (strm : SoundStream σ) (p : SoundPlayer σ) : SoundStreamPos :=
  SoundStreamPos.fromSeconds (currentSecond strm p)

/-- The C++ `totalSeconds()`. -/
def totalSeconds (strm : SoundStream σ) (p : SoundPlayer σ) : Nat :=
  match p.raw_stream with
  | some r => strm.total (p.streams r)
  | none => 0

end SoundPlayer

/-! ## The background task (`soundplayer.cc`, lines 76-121) -/

/-- How a run of a loop of the background task ends within a given number of steps: it has
left the loop with a result, it is still inside the loop, or it has dereferenced a null
`_raw_stream`. -/
inductive Outcome (α : Type) where
  | done : α → Outcome α
  | looping : Outcome α
  | fault : Outcome α

/-- What the controlling thread does to the player between two passes of the loop of the
background task: nothing, the two assignments of `stop()` (its join then waits for the
task), `pause()`, `resume()` or `setPlayPos(pos)`. -/
inductive CtlOp where
  | idle
  | stop
  | pause
  | resume
  | setPlayPos (pos : SoundStreamPos)

/-- The value of `_raw_stream->total() - 1`, an unsigned 64-bit subtraction: it wraps to
`2 ^ 64 - 1` when `total()` is 0. -/
def total_minus_one (total : Nat) : Nat := (total % U64 + (U64 - 1)) % U64

namespace SoundPlayer

variable {σ : Type}

/-- The effect of an operation of the controlling thread on the player. -/
def ctl (strm : SoundStream σ) (op : CtlOp) (p : SoundPlayer σ) : SoundPlayer σ :=
  match op with
  | .idle => p
  | .stop => stop_flags p
  | .pause => pause p
  | .resume => resume p
  | .setPlayPos pos => setPlayPos strm pos p

/-- The write-retry loop (lines 92-102), `do ... while(frames > 0)`, run for at most `fuel`
passes from the buffer offset `start` with `frames` frames left.  One pass: `writei` is
called and its answer logged; a positive answer `frame` advances the offset by
`frame * _raw_stream->block_align()` and takes `frame` off `frames`; the answer `-EPIPE`
calls `prepare()`, whose answer is not looked at.  The result is the player, the offset
and the frames left when the loop is over. -/
def write_loop (pcm : Pcm) (strm : SoundStream σ) :
    Nat → SoundPlayer σ → Int → Int → Outcome (SoundPlayer σ × Int × Int)
  | 0, _, _, _ => .looping
  | fuel + 1, p, start, frames =>
    let frame := pcm.writei p.pcm.writes.length start frames
    let p1 := { p with pcm := { p.pcm with writes := frame :: p.pcm.writes } }
    let advanced : Option (Int × Int) :=
      if frame > 0 then
        match p1.raw_stream with
        | some r => some (start + frame * (strm.block_align (p1.streams r) : Int), frames - frame)
        | none => none
      else some (start, frames)
    match advanced with
    | none => .fault
    | some (start1, frames1) =>
      let p2 :=
        if frame = -EPIPE then
          { p1 with pcm := { p1.pcm with prepares := p1.pcm.prepares + 1 } }
        else p1
      if frames1 > 0 then write_loop pcm strm fuel p2 start1 frames1
      else .done (p2, start1, frames1)

/-- One pass of the write-retry loop on a player whose active stream is stream `r`, as a
single step: the player, the offset and the frames left after the pass.  `write_loop` is
shown to be the iteration of this step (`write_loop_succ`). -/
def write_pass (pcm : Pcm) (strm : SoundStream σ) (r : Nat) (p : SoundPlayer σ)
    (start frames : Int) : SoundPlayer σ × Int × Int :=
  let frame := pcm.writei p.pcm.writes.length start frames
  ({ p with pcm := { p.pcm with
        writes := frame :: p.pcm.writes,
        prepares := if frame = -EPIPE then p.pcm.prepares + 1 else p.pcm.prepares } },
    if frame > 0 then start + frame * (strm.block_align (p.streams r) : Int) else start,
    if frame > 0 then frames - frame else frames)

/-- The frames written by a list of answers of `writei`: the sum of the positive ones. -/
def frames_written (answers : List Int) : Int :=
  (answers.filter (fun a => 0 < a)).sum

/-- The write-retry as the specification words it, to compare `write_loop` with:
`answers` are, in the order of the calls, what the sink answers to the calls of `writei`
from call number `k` on, each call made at the current offset for the frames still to be
written; a positive answer advances the offset by `frame * block_align` and takes the
frames off the count, any other answer retries at the same offset with the same count. -/
def answers_from (pcm : Pcm) (block_align : Int) : List Int → Nat → Int → Int → Prop
  | [], _, _, _ => True
  | a :: rest, k, start, frames =>
    a = pcm.writei k start frames ∧
      answers_from pcm block_align rest (k + 1)
        (if a > 0 then start + a * block_align else start)
        (if a > 0 then frames - a else frames)

/-- The read and the write of one pass of the playback loop (lines 89-103):
`_raw_stream->read(buffer, size)`, and if the read gave exactly `size` bytes, the
write-retry loop over `_pcm.bytes_to_frames(size)` frames from the start of the buffer.
A shorter read writes nothing. -/
def play_chunk (pcm : Pcm) (strm : SoundStream σ) (wfuel size : Nat) (p : SoundPlayer σ) :
    Outcome (SoundPlayer σ) :=
  match p.raw_stream with
  | none => .fault
  | some r =>
    let got := strm.read (p.streams r) size
    let p1 := { p with streams := Function.update p.streams r got.2 }
    if got.1 = size then
      match write_loop pcm strm wfuel p1 0 (pcm.bytes_to_frames size) with
      | .done (p2, _, _) => .done p2
      | .looping => .looping
      | .fault => .fault
    else .done p1

/-- The playback loop (lines 85-115), `while(is_playing())`, run for at most `fuel` passes;
`i` numbers the pass, `sched i` is what the controlling thread did since the pass before,
`wfuel` bounds each write-retry loop and `size` is the buffer size.  A paused pass only
yields.  Another pass reads and writes a chunk (`play_chunk`), sleeps (no effect on the
state) and breaks when `pos() >= total() - 1`.  The result is the player at the exit and
the number of passes begun. -/
def play_loop (pcm : Pcm) (strm : SoundStream σ) (sched : Nat → CtlOp) (wfuel size : Nat) :
    Nat → Nat → SoundPlayer σ → Outcome (SoundPlayer σ × Nat)
  | 0, _, _ => .looping
  | fuel + 1, i, p0 =>
    let p := ctl strm (sched i) p0
    if !p.is_playing then .done (p, i)
    else if p.is_paused then play_loop pcm strm sched wfuel size fuel (i + 1) p
    else
      match play_chunk pcm strm wfuel size p with
      | .looping => .looping
      | .fault => .fault
      | .done p2 =>
        match p2.raw_stream with
        | none => .fault
        | some r2 =>
          if strm.pos (p2.streams r2) ≥ total_minus_one (strm.total (p2.streams r2)) then
            .done (p2, i + 1)
          else play_loop pcm strm sched wfuel size fuel (i + 1) p2

/-- The background task (the lambda of lines 76-121): the buffer is sized by
`_raw_stream->byte_rate()`, `prepare()` is called, the playback loop runs if it answered
true, and whichever way the loop is left the task ends in `task_exit`.  The result is the
player after the task and the number of passes of the playback loop. -/
def play_thread (pcm : Pcm) (strm : SoundStream σ) (sched : Nat → CtlOp) (wfuel fuel : Nat)
    (p : SoundPlayer σ) : Outcome (SoundPlayer σ × Nat) :=
  match p.raw_stream with
  | none => .fault
  | some r =>
    let size := strm.byte_rate (p.streams r)
    let prepared := pcm.prepare_ok p.pcm.prepares
    let p1 := { p with pcm := { p.pcm with prepares := p.pcm.prepares + 1 } }
    if prepared then
      match play_loop pcm strm sched wfuel size fuel 0 p1 with
      | .done (p2, n) => .done (task_exit p2, n)
      | .looping => .looping
      | .fault => .fault
    else .done (task_exit p1, 0)

end SoundPlayer

/-! ## Sequences of operations on the player -/

/-- The operations a caller can apply to the player, with the end of the background task
as one more event and `set_stream` for the caller installing another active stream. -/
inductive Op where
  | start
  | stop
  | pause
  | resume
  | setPlayPos (pos : SoundStreamPos)
  | save_stream
  | restore_stream
  | set_stream (s : StreamPtr)
  | task_exit
  deriving DecidableEq

namespace SoundPlayer

variable {σ : Type}

/-- One operation applied to the player; `none` when `start()` terminates the process, or
when the end of the task is asked for while no task is running. -/
def perform (pcm : Pcm) (hw : HardwareParams) (strm : SoundStream σ) (op : Op)
    (p : SoundPlayer σ) : Option (SoundPlayer σ) :=
  match op with
  | .start => (start pcm hw strm p).map Prod.snd
  | .stop => some (stop p)
  | .pause => some (pause p)
  | .resume => some (resume p)
  | .setPlayPos pos => some (setPlayPos strm pos p)
  | .save_stream => some (save_stream p)
  | .restore_stream => some (restore_stream p)
  | .set_stream s => some { p with raw_stream := s }
  | .task_exit => if p.thread_running then some (task_exit p) else none

/-- A sequence of operations applied from left to right. -/
def run (pcm : Pcm) (hw : HardwareParams) (strm : SoundStream σ) :
    List Op → SoundPlayer σ → Option (SoundPlayer σ)
  | [], p => some p
  | op :: ops, p =>
    match perform pcm hw strm op p with
    | some p1 => run pcm hw strm ops p1
    | none => none

/-- The same, for callers that call `pause()` only on a playing player: a `pause()` met
while `is_playing()` is false is refused (`none`). -/
def run_guarded (pcm : Pcm) (hw : HardwareParams) (strm : SoundStream σ) :
    List Op → SoundPlayer σ → Option (SoundPlayer σ)
  | [], p => some p
  | op :: ops, p =>
    if op = Op.pause ∧ p.is_playing = false then none
    else
      match perform pcm hw strm op p with
      | some p1 => run_guarded pcm hw strm ops p1
      | none => none

end SoundPlayer

/-! ## The collaborators used in the examples -/

/-- A stream object of the examples: its position and its total, in seconds. -/
structure Tape where
  pos : Nat
  total : Nat
  deriving DecidableEq, Repr

/-- A stream of `rate` bytes per second: a read of `size`
bytes is full and advances the position by `size / rate` seconds while that much is left,
and gives 0 bytes otherwise. -/
def tapeStream (rate : Nat) : SoundStream Tape :=
  { byte_rate := fun _ => rate
    block_align := fun _ => 2
    channels := fun _ => 1
    sample_rate := fun _ => rate / 2
    bits_per_sample := fun _ => 16
    read := fun t size =>
      if t.pos * rate + size ≤ t.total * rate then (size, { t with pos := t.pos + size / rate })
      else (0, t)
    pos := fun t => t.pos
    total := fun t => t.total
    setPos := fun t s => { t with pos := s } }

/-- A sink that opens, prepares, and writes all the frames it is asked to write. -/
def goodPcm : Pcm :=
  { open_ok := fun _ _ => true
    error_msg := "pcm error"
    prepare_ok := fun _ => true
    writei := fun _ _ frames => frames
    bytes_to_frames := fun bytes => (bytes / 2 : Nat) }

/-- A sink as `goodPcm` whose first `writei` reports an underrun. -/
def underrunPcm : Pcm :=
  { goodPcm with writei := fun k _ frames => if k = 0 then -EPIPE else frames }

/-- A sink as `goodPcm` that answers 7 frames written to every `writei`, whatever the
count it was asked to write. -/
def overPcm : Pcm :=
  { goodPcm with writei := fun _ _ _ => 7 }

/-- A sink as `goodPcm` whose `prepare()` fails. -/
def unpreparedPcm : Pcm :=
  { goodPcm with prepare_ok := fun _ => false }

/-- Hardware parameters that accept every setting. -/
def goodHw : HardwareParams :=
  { set_access := true
    set_channels := fun _ => true
    set_format := fun _ => true
    set_rate_near := fun _ => true
    set_buffer_time_near := fun _ => true
    set_buffer_size_near := fun _ => true
    error_msg := fun _ => "hw error" }

/-- The name of the sink the players of the examples open. -/
def DEFAULT_NAME : String := "default"

/-- A freshly constructed player whose active stream is stream 0, a tape of `total` seconds
at position 0. -/
def tapePlayer (total : Nat) : SoundPlayer Tape :=
  SoundPlayer.create DEFAULT_NAME (some 0) (fun _ => { pos := 0, total := total })

/-- The player of the examples after a `start()` that went through: the sink opened and
configured, the playing flag set, the background task spawned. -/
def startedTape (total : Nat) : SoundPlayer Tape :=
  { tapePlayer total with
    pcm := { opens := 1, closes := 0, prepares := 0, hw_params_sets := 1, writes := [] },
    player_playing := true, thread_joinable := true, thread_running := true,
    threads_spawned := 1, player_err_msg := "Success" }

/-- The schedule of a controlling thread that calls `stop()` before pass number `k` of the
playback loop and does nothing else. -/
def stopAt (k : Nat) : Nat → CtlOp :=
  fun i => if i = k then CtlOp.stop else CtlOp.idle

/-- What a run of the background task of the examples shows once it has ended: the number
of passes of the loop, the position of stream 0, `is_playing()`, `is_paused()`, and the
counts of `open` and `close` in the log of the sink; `none` while it has not ended. -/
def report (o : Outcome (SoundPlayer Tape × Nat)) : Option (Nat × Nat × Bool × Bool × Nat × Nat) :=
  match o with
  | .done (p, n) =>
    some (n, (p.streams 0).pos, p.is_playing, p.is_paused, p.pcm.opens, p.pcm.closes)
  | .looping => none
  | .fault => none


/-! ## Theorems: the position codec -/

namespace SoundStreamPos

/-- C1: for every unsigned 64-bit seconds count `s`, `toSeconds` applied to
`fromSeconds(s)` returns `s`. -/
theorem toSeconds_fromSeconds (s : Nat) (hs : s < U64) :
    (fromSeconds s).toSeconds = s := by
  unfold toSeconds fromSeconds
  have hsum : s / 60 / 60 * 3600 + s / 60 % 60 * 60 + s % 60 = s := by omega
  simp only [hsum]
  exact Nat.mod_eq_of_lt hs

/-- C1 at the largest unsigned 64-bit count. -/
theorem toSeconds_fromSeconds_witness :
    18446744073709551615 < U64 ∧
      (fromSeconds 18446744073709551615).toSeconds = 18446744073709551615 :=
  ⟨by decide, toSeconds_fromSeconds 18446744073709551615 (by decide)⟩

/-- C2 as stated fails: the position 5124095576030431:00:16 has its minute and second in
[0,60) and members that fit 64 bits, but its `toSeconds()` is `2 ^ 64` wrapped to 0, and
`fromSeconds(0)` is 0:00:00. -/
theorem fromSeconds_toSeconds_wraps :
    (SoundStreamPos.mk 5124095576030431 0 16).IsU64 ∧
      (SoundStreamPos.mk 5124095576030431 0 16).minute < 60 ∧
      (SoundStreamPos.mk 5124095576030431 0 16).second < 60 ∧
      (SoundStreamPos.mk 5124095576030431 0 16).toSeconds = 0 ∧
      fromSeconds (SoundStreamPos.mk 5124095576030431 0 16).toSeconds
        = SoundStreamPos.mk 0 0 0 ∧
      fromSeconds (SoundStreamPos.mk 5124095576030431 0 16).toSeconds
        ≠ SoundStreamPos.mk 5124095576030431 0 16 := by
  decide

/-- C2, amended: for every position `p` whose minute and second are in [0,60) and whose
count `hour*3600 + minute*60 + second` fits 64 bits, `fromSeconds(p.toSeconds())` equals
`p` member by member. -/
theorem fromSeconds_toSeconds (p : SoundStreamPos) (hm : p.minute < 60) (hsec : p.second < 60)
    (hfit : p.hour * 3600 + p.minute * 60 + p.second < U64) :
    fromSeconds p.toSeconds = p := by
  obtain ⟨h, m, s⟩ := p
  simp only at hm hsec hfit
  unfold toSeconds fromSeconds
  simp only [Nat.mod_eq_of_lt hfit]
  have h1 : (h * 3600 + m * 60 + s) / 60 / 60 = h := by omega
  have h2 : (h * 3600 + m * 60 + s) / 60 % 60 = m := by omega
  have h3 : (h * 3600 + m * 60 + s) % 60 = s := by omega
  simp only [h1, h2, h3]

/-- C2, amended, at the last position of the 64-bit range, 5124095576030431:00:15. -/
theorem fromSeconds_toSeconds_witness :
    fromSeconds (SoundStreamPos.mk 5124095576030431 0 15).toSeconds
      = SoundStreamPos.mk 5124095576030431 0 15 :=
  fromSeconds_toSeconds (SoundStreamPos.mk 5124095576030431 0 15)
    (by decide) (by decide) (by decide)

/-- C3: for every seconds count, `fromSeconds` returns second = total mod 60,
minute = (total / 60) mod 60 and hour = floor(total / 3600), so minute and second are
below 60. -/
theorem fromSeconds_members (totalSeconds : Nat) :
    (fromSeconds totalSeconds).second = totalSeconds % 60 ∧
      (fromSeconds totalSeconds).minute = totalSeconds / 60 % 60 ∧
      (fromSeconds totalSeconds).hour = totalSeconds / 3600 ∧
      (fromSeconds totalSeconds).minute < 60 ∧
      (fromSeconds totalSeconds).second < 60 := by
  unfold fromSeconds
  refine ⟨rfl, rfl, ?_, ?_, ?_⟩
  · show totalSeconds / 60 / 60 = totalSeconds / 3600
    omega
  · show totalSeconds / 60 % 60 < 60
    omega
  · show totalSeconds % 60 < 60
    omega

/-- The members `fromSeconds` computes from a 64-bit count fit 64 bits. -/
theorem fromSeconds_isU64 (totalSeconds : Nat) (h : totalSeconds < U64) :
    (fromSeconds totalSeconds).IsU64 := by
  unfold fromSeconds IsU64
  refine ⟨?_, ?_, ?_⟩
  · show totalSeconds / 60 / 60 < U64
    omega
  · show totalSeconds / 60 % 60 < U64
    unfold U64; omega
  · show totalSeconds % 60 < U64
    unfold U64; omega

end SoundStreamPos

/-! ## Theorems: the stream stack and `start()` -/

namespace SoundPlayer

variable {σ : Type}

/-- C4 as stated fails: on a player with no active stream and stream 1 on the stack,
`save_stream()` pushes nothing and `restore_stream()` then makes stream 1 active. -/
theorem save_restore_installs_top :
    (tapePlayer 10).raw_stream = some 0 ∧
      ({ tapePlayer 10 with raw_stream := none, stream_stack := [some 1] } :
          SoundPlayer Tape).raw_stream = none ∧
      (restore_stream (save_stream
        ({ tapePlayer 10 with raw_stream := none, stream_stack := [some 1] } :
          SoundPlayer Tape))).raw_stream = some 1 := by
  refine ⟨rfl, rfl, rfl⟩

/-- C4, amended: on every player that has an active stream, or whose stream stack is
empty, `save_stream()` followed by `restore_stream()` leaves the player as it was: the
same active stream, the same stack. -/
theorem save_restore_unchanged (p : SoundPlayer σ)
    (h : p.raw_stream ≠ none ∨ p.stream_stack = []) :
    restore_stream (save_stream p) = p ∧
      (restore_stream (save_stream p)).raw_stream = p.raw_stream := by
  have key : restore_stream (save_stream p) = p := by
    cases hraw : p.raw_stream with
    | some r =>
      unfold save_stream
      simp only [hraw]
      unfold restore_stream
      simp only
      cases p
      simp_all
    | none =>
      rcases h with h | h
      · exact absurd hraw h
      · unfold save_stream
        simp only [hraw]
        unfold restore_stream
        simp only [h]
  exact ⟨key, by rw [key]⟩

/-- C4, amended, on a player with stream 0 active and stream 1 on the stack. -/
theorem save_restore_unchanged_witness :
    (restore_stream (save_stream
      ({ tapePlayer 10 with stream_stack := [some 1] } : SoundPlayer Tape))).raw_stream
      = some 0 :=
  (save_restore_unchanged ({ tapePlayer 10 with stream_stack := [some 1] } : SoundPlayer Tape)
    (Or.inl (by decide))).2

/-- C5: on every player with no active stream, its playing flag false as the claim has it
left (`no_stream_not_playing`: the operations of the player never reach a playing player
without a stream), `start()` returns false and changes the last error message to
"Sound Stream Not Set" and nothing else: the playing flag is still false, `open` was not
called on the sink and no background task was spawned. -/
theorem start_without_stream (pcm : Pcm) (hw : HardwareParams) (strm : SoundStream σ)
    (p : SoundPlayer σ) (hraw : p.raw_stream = none) (hplay : p.player_playing = false) :
    start pcm hw strm p = some (false, { p with player_err_msg := "Sound Stream Not Set" }) ∧
      (∀ r p1, start pcm hw strm p = some (r, p1) →
        r = false ∧ p1.error_msg = "Sound Stream Not Set" ∧ p1.is_playing = false ∧
        p1.pcm.opens = p.pcm.opens ∧ p1.pcm = p.pcm ∧
        p1.threads_spawned = p.threads_spawned ∧ p1.thread_running = p.thread_running ∧
        p1.thread_joinable = p.thread_joinable) := by
  have key : start pcm hw strm p
      = some (false, { p with player_err_msg := "Sound Stream Not Set" }) := by
    unfold start
    simp [hraw, hplay, MSG_NOT_SET]
  refine ⟨key, ?_⟩
  intro r p1 h
  rw [key] at h
  simp only [Option.some.injEq, Prod.mk.injEq] at h
  obtain ⟨h1, h2⟩ := h
  subst h1 h2
  simp [error_msg, is_playing, hplay]

/-- C5 on a freshly constructed player without a stream. -/
theorem start_without_stream_witness :
    start goodPcm goodHw (tapeStream 8) ({ tapePlayer 10 with raw_stream := none })
      = some (false, { ({ tapePlayer 10 with raw_stream := none } : SoundPlayer Tape) with
                        player_err_msg := "Sound Stream Not Set" }) :=
  (start_without_stream goodPcm goodHw (tapeStream 8)
    ({ tapePlayer 10 with raw_stream := none }) rfl rfl).1

/-- C6: on every player whose playing flag is set, `start()` returns false and changes
the last error message to "Play is Playing Now" and nothing else: flags, active stream,
stack, sink log (no further `open`) and thread state (no further task) are as before. -/
theorem start_while_playing (pcm : Pcm) (hw : HardwareParams) (strm : SoundStream σ)
    (p : SoundPlayer σ) (hplay : p.player_playing = true) :
    start pcm hw strm p = some (false, { p with player_err_msg := "Play is Playing Now" }) ∧
      (∀ r p1, start pcm hw strm p = some (r, p1) →
        r = false ∧ p1.error_msg = "Play is Playing Now" ∧
        p1.is_playing = p.is_playing ∧ p1.is_paused = p.is_paused ∧
        p1.raw_stream = p.raw_stream ∧ p1.stream_stack = p.stream_stack ∧
        p1.pcm = p.pcm ∧ p1.threads_spawned = p.threads_spawned ∧
        p1.thread_running = p.thread_running ∧ p1.thread_joinable = p.thread_joinable ∧
        p1.streams = p.streams) := by
  have key : start pcm hw strm p
      = some (false, { p with player_err_msg := "Play is Playing Now" }) := by
    unfold start
    simp [hplay, MSG_PLAYING]
  refine ⟨key, ?_⟩
  intro r p1 h
  rw [key] at h
  simp only [Option.some.injEq, Prod.mk.injEq] at h
  obtain ⟨h1, h2⟩ := h
  subst h1 h2
  simp [error_msg, is_playing, is_paused]

/-- C6 on the player of the examples after a first `start()`. -/
theorem start_while_playing_witness :
    start goodPcm goodHw (tapeStream 8) (startedTape 10)
      = some (false, { startedTape 10 with player_err_msg := "Play is Playing Now" }) :=
  (start_while_playing goodPcm goodHw (tapeStream 8) (startedTape 10) rfl).1

/-- On the player of the examples `start()` goes through and gives `startedTape`. -/
theorem start_tapePlayer (pcm : Pcm) (total : Nat) (h : pcm.open_ok 0 DEFAULT_NAME = true) :
    start pcm goodHw (tapeStream 8) (tapePlayer total) = some (true, startedTape total) := by
  unfold start
  simp [tapePlayer, startedTape, create, h, generateHwParams, goodHw, MSG_SUCCESS]

end SoundPlayer

/-! ## Theorems: the play / pause state machine -/

namespace SoundPlayer

variable {σ : Type}

/-- C9 as stated fails: on a freshly constructed player with an active stream, `pause()`
alone sets the paused flag, and the player is paused without playing. -/
theorem pause_while_stopped :
    (tapePlayer 10).is_playing = false ∧ (tapePlayer 10).is_paused = false ∧
      (run goodPcm goodHw (tapeStream 8) [Op.pause] (tapePlayer 10)).map
        (fun p => (p.is_paused, p.is_playing)) = some (true, false) := by
  refine ⟨rfl, rfl, rfl⟩

/-- The C++ `generateHwParams` changes the last error message and nothing else. -/
theorem generateHwParams_frame (hw : HardwareParams) (strm : SoundStream σ)
    (p p2 : SoundPlayer σ) (b : Bool) (h : generateHwParams hw strm p = (b, p2)) :
    p2 = { p with player_err_msg := p2.player_err_msg } := by
  unfold generateHwParams at h
  split at h
  · simp only [Prod.mk.injEq] at h
    obtain ⟨-, rfl⟩ := h
    rfl
  · simp only at h
    split_ifs at h <;>
      (simp only [Prod.mk.injEq] at h
       obtain ⟨-, rfl⟩ := h
       rfl)

/-- What `start()` does to the two flags: the paused flag is never changed, and the playing
flag is either unchanged or set. -/
theorem start_flags (pcm : Pcm) (hw : HardwareParams) (strm : SoundStream σ)
    (p p1 : SoundPlayer σ) (b : Bool) (h : start pcm hw strm p = some (b, p1)) :
    p1.player_paused = p.player_paused ∧
      (p1.player_playing = p.player_playing ∨ p1.player_playing = true) := by
  by_cases h1 : p.player_playing = true
  · simp only [start, h1, if_true, Option.some.injEq, Prod.mk.injEq] at h
    obtain ⟨-, rfl⟩ := h
    exact ⟨rfl, by simp_all⟩
  by_cases h2 : p.raw_stream = none
  · simp only [start, h1, h2, if_true, Option.some.injEq, Prod.mk.injEq] at h
    obtain ⟨-, rfl⟩ := h
    exact ⟨rfl, by simp_all⟩
  by_cases h3 : pcm.open_ok p.pcm.opens p.player_name = true
  · simp only [start, h1, h2, h3, if_false, Bool.not_true, Bool.false_eq_true] at h
    split at h
    · rename_i p2 heq
      have hfr := generateHwParams_frame hw strm _ p2 false heq
      simp only [Option.some.injEq, Prod.mk.injEq] at h
      obtain ⟨-, rfl⟩ := h
      rw [hfr]
      clear hfr heq
      exact ⟨rfl, by simp_all⟩
    · rename_i p2 heq
      have hfr := generateHwParams_frame hw strm _ p2 true heq
      split_ifs at h
      simp only [Option.some.injEq, Prod.mk.injEq] at h
      obtain ⟨-, rfl⟩ := h
      refine ⟨?_, Or.inr rfl⟩
      show p2.player_paused = p.player_paused
      rw [hfr]
  · simp only [Bool.not_eq_true] at h3
    simp only [start, h1, h2, h3, if_false, Bool.not_false, if_true, Option.some.injEq,
      Prod.mk.injEq] at h
    obtain ⟨-, rfl⟩ := h
    exact ⟨rfl, by simp_all⟩

/-- After `stop()` both flags are false. -/
theorem stop_flags_cleared (p : SoundPlayer σ) :
    (stop p).player_playing = false ∧ (stop p).player_paused = false := by
  simp only [stop, stop_flags, task_exit]
  split_ifs <;> exact ⟨rfl, rfl⟩

/-- Every operation keeps "paused implies playing", provided `pause()` is applied to a
playing player only. -/
theorem perform_keeps_paused_playing (pcm : Pcm) (hw : HardwareParams) (strm : SoundStream σ)
    (op : Op) (p p1 : SoundPlayer σ)
    (hguard : ¬ (op = Op.pause ∧ p.is_playing = false))
    (hinv : p.player_paused = true → p.player_playing = true)
    (hstep : perform pcm hw strm op p = some p1) :
    p1.player_paused = true → p1.player_playing = true := by
  cases op with
  | start =>
    simp only [perform, Option.map_eq_some', Prod.exists, exists_eq_right] at hstep
    obtain ⟨b, hb⟩ := hstep
    obtain ⟨h1, h2⟩ := start_flags pcm hw strm p p1 b hb
    intro hp
    rcases h2 with h2 | h2
    · rw [h2]; exact hinv (h1 ▸ hp)
    · exact h2
  | stop =>
    simp only [perform, Option.some.injEq] at hstep
    subst hstep
    intro h
    rw [(stop_flags_cleared p).2] at h
    exact absurd h (by decide)
  | pause =>
    simp only [perform, Option.some.injEq] at hstep
    subst hstep
    have hp : p.player_playing = true := by
      by_contra hc
      exact hguard ⟨rfl, by simpa [is_playing] using hc⟩
    unfold pause
    split <;> simp_all
  | resume =>
    simp only [perform, Option.some.injEq] at hstep
    subst hstep
    unfold resume
    split <;> simp_all
  | setPlayPos pos =>
    simp only [perform, Option.some.injEq] at hstep
    subst hstep
    unfold setPlayPos resume pause
    cases hraw : p.raw_stream <;> simp_all
  | save_stream =>
    simp only [perform, Option.some.injEq] at hstep
    subst hstep
    unfold save_stream
    split <;> simp_all
  | restore_stream =>
    simp only [perform, Option.some.injEq] at hstep
    subst hstep
    unfold restore_stream
    split <;> simp_all
  | set_stream s =>
    simp only [perform, Option.some.injEq] at hstep
    subst hstep
    exact hinv
  | task_exit =>
    simp only [perform] at hstep
    split_ifs at hstep
    simp only [Option.some.injEq] at hstep
    subst hstep
    unfold task_exit
    simp

/-- Sequences of operations keep "paused implies playing" when `pause()` is applied to a
playing player only, from any state where it holds. -/
theorem run_guarded_keeps_paused_playing (pcm : Pcm) (hw : HardwareParams)
    (strm : SoundStream σ) (ops : List Op) :
    ∀ p p1 : SoundPlayer σ, (p.player_paused = true → p.player_playing = true) →
      run_guarded pcm hw strm ops p = some p1 →
      p1.player_paused = true → p1.player_playing = true := by
  induction ops with
  | nil =>
    intro p p1 hinv hrun
    simp only [run_guarded, Option.some.injEq] at hrun
    subst hrun
    exact hinv
  | cons op ops ih =>
    intro p p1 hinv hrun
    unfold run_guarded at hrun
    split_ifs at hrun with hg
    cases hstep : perform pcm hw strm op p with
    | none => simp [hstep] at hrun
    | some p2 =>
      simp only [hstep] at hrun
      exact ih p2 p1 (perform_keeps_paused_playing pcm hw strm op p p2 hg hinv hstep) hrun

/-- What `start()` does to the streams and the playing flag: the active stream and the
stack are never changed, and the playing flag is set only on a player that has a stream. -/
theorem start_keeps_stream (pcm : Pcm) (hw : HardwareParams) (strm : SoundStream σ)
    (p p1 : SoundPlayer σ) (b : Bool) (h : start pcm hw strm p = some (b, p1)) :
    p1.raw_stream = p.raw_stream ∧ p1.stream_stack = p.stream_stack ∧
      (p1.player_playing = true → p.player_playing = true ∨ p.raw_stream ≠ none) := by
  by_cases h1 : p.player_playing = true
  · simp only [start, h1, if_true, Option.some.injEq, Prod.mk.injEq] at h
    obtain ⟨-, rfl⟩ := h
    exact ⟨rfl, rfl, fun _ => Or.inl h1⟩
  by_cases h2 : p.raw_stream = none
  · simp only [start, h1, h2, if_true, Option.some.injEq, Prod.mk.injEq] at h
    obtain ⟨-, rfl⟩ := h
    exact ⟨by simp [h2], rfl, fun hp => absurd hp (by simp [h1])⟩
  by_cases h3 : pcm.open_ok p.pcm.opens p.player_name = true
  · simp only [start, h1, h2, h3, if_false, Bool.not_true, Bool.false_eq_true] at h
    split at h
    · rename_i p2 heq
      have hfr := generateHwParams_frame hw strm _ p2 false heq
      simp only [Option.some.injEq, Prod.mk.injEq] at h
      obtain ⟨-, rfl⟩ := h
      rw [hfr]
      exact ⟨rfl, rfl, fun _ => Or.inr h2⟩
    · rename_i p2 heq
      have hfr := generateHwParams_frame hw strm _ p2 true heq
      split_ifs at h
      simp only [Option.some.injEq, Prod.mk.injEq] at h
      obtain ⟨-, rfl⟩ := h
      refine ⟨?_, ?_, fun _ => Or.inr h2⟩
      · show p2.raw_stream = p.raw_stream
        rw [hfr]
      · show p2.stream_stack = p.stream_stack
        rw [hfr]
  · simp only [Bool.not_eq_true] at h3
    simp only [start, h1, h2, h3, if_false, Bool.not_false, if_true, Option.some.injEq,
      Prod.mk.injEq] at h
    obtain ⟨-, rfl⟩ := h
    exact ⟨rfl, rfl, fun _ => Or.inr h2⟩

/-- Every operation but the removal of the active stream by the caller keeps "a playing
player has a stream, and no entry of the stack is null". -/
theorem perform_keeps_stream (pcm : Pcm) (hw : HardwareParams) (strm : SoundStream σ)
    (op : Op) (p p1 : SoundPlayer σ) (hop : op ≠ Op.set_stream none)
    (hinv : (p.player_playing = true → p.raw_stream ≠ none) ∧
      ∀ s ∈ p.stream_stack, s ≠ none)
    (hstep : perform pcm hw strm op p = some p1) :
    (p1.player_playing = true → p1.raw_stream ≠ none) ∧
      ∀ s ∈ p1.stream_stack, s ≠ none := by
  obtain ⟨hplay, hstack⟩ := hinv
  cases op with
  | start =>
    simp only [perform, Option.map_eq_some', Prod.exists, exists_eq_right] at hstep
    obtain ⟨b, hb⟩ := hstep
    obtain ⟨h1, h2, h3⟩ := start_keeps_stream pcm hw strm p p1 b hb
    refine ⟨fun hp => ?_, by rw [h2]; exact hstack⟩
    rw [h1]
    rcases h3 hp with h | h
    · exact hplay h
    · exact h
  | stop =>
    simp only [perform, Option.some.injEq] at hstep
    subst hstep
    refine ⟨fun hp => ?_, ?_⟩
    · rw [(stop_flags_cleared p).1] at hp
      exact absurd hp (by decide)
    · simp only [stop, stop_flags, task_exit]
      split_ifs <;> exact hstack
  | pause =>
    simp only [perform, Option.some.injEq] at hstep
    subst hstep
    unfold pause
    split <;> exact ⟨hplay, hstack⟩
  | resume =>
    simp only [perform, Option.some.injEq] at hstep
    subst hstep
    unfold resume
    split <;> exact ⟨hplay, hstack⟩
  | setPlayPos pos =>
    simp only [perform, Option.some.injEq] at hstep
    subst hstep
    unfold setPlayPos resume pause
    cases hraw : p.raw_stream with
    | none => simp only [hraw]; exact ⟨by rw [hraw] at hplay; exact hplay, hstack⟩
    | some r => simp only [hraw]; exact ⟨fun _ => by simp, hstack⟩
  | save_stream =>
    simp only [perform, Option.some.injEq] at hstep
    subst hstep
    unfold save_stream
    split
    · refine ⟨hplay, ?_⟩
      intro s hs
      rcases List.mem_cons.mp hs with hs | hs
      · rw [hs]; simp
      · exact hstack s hs
    · exact ⟨hplay, hstack⟩
  | restore_stream =>
    simp only [perform, Option.some.injEq] at hstep
    subst hstep
    unfold restore_stream
    split
    · exact ⟨hplay, hstack⟩
    · rename_i top rest heq
      rw [heq] at hstack
      exact ⟨fun _ => hstack top (List.mem_cons_self top rest),
        fun s hs => hstack s (List.mem_cons_of_mem top hs)⟩
  | set_stream s =>
    simp only [perform, Option.some.injEq] at hstep
    subst hstep
    refine ⟨fun _ => ?_, hstack⟩
    intro hs
    exact hop (by rw [show s = none from hs])
  | task_exit =>
    simp only [perform] at hstep
    split_ifs at hstep
    simp only [Option.some.injEq] at hstep
    subst hstep
    exact ⟨fun hp => absurd hp (by simp [task_exit]), hstack⟩

/-- No sequence of operations of the player reaches a playing player without an active
stream, as long as the caller does not take the active stream away: from a freshly
constructed player, whatever its stream, a player with no active stream is not playing. -/
theorem no_stream_not_playing (pcm : Pcm) (hw : HardwareParams) (strm : SoundStream σ)
    (name : String) (raw : StreamPtr) (streams : Nat → σ) (ops : List Op) (p : SoundPlayer σ)
    (hops : ∀ op ∈ ops, op ≠ Op.set_stream none)
    (hrun : run pcm hw strm ops (create name raw streams) = some p)
    (hraw : p.raw_stream = none) : p.player_playing = false := by
  have key : ∀ (ops : List Op) (q q1 : SoundPlayer σ),
      (∀ op ∈ ops, op ≠ Op.set_stream none) →
      ((q.player_playing = true → q.raw_stream ≠ none) ∧ ∀ s ∈ q.stream_stack, s ≠ none) →
      run pcm hw strm ops q = some q1 →
      (q1.player_playing = true → q1.raw_stream ≠ none) ∧
        ∀ s ∈ q1.stream_stack, s ≠ none := by
    intro ops
    induction ops with
    | nil =>
      intro q q1 _ hinv h
      simp only [run, Option.some.injEq] at h
      subst h
      exact hinv
    | cons op rest ih =>
      intro q q1 hall hinv h
      unfold run at h
      cases hstep : perform pcm hw strm op q with
      | none => simp [hstep] at h
      | some q2 =>
        simp only [hstep] at h
        exact ih q2 q1 (fun o ho => hall o (List.mem_cons_of_mem op ho))
          (perform_keeps_stream pcm hw strm op q q2 (hall op (List.mem_cons_self op rest))
            hinv hstep) h
  have h := (key ops (create name raw streams) p hops
    ⟨fun hp => by simp [create] at hp, fun s hs => by simp [create] at hs⟩ hrun).1
  by_contra hc
  exact h (by simpa using hc) hraw

/-- C9, amended: in every state reached from a freshly constructed player (any name, any
active stream) by a sequence of `start()`, `stop()`, `pause()`, `resume()`,
`setPlayPos()`, `save_stream()`, `restore_stream()`, changes of the active stream and ends
of the background task in which `pause()` is called on a playing player only,
`is_paused()` implies `is_playing()`. -/
theorem paused_implies_playing (pcm : Pcm) (hw : HardwareParams) (strm : SoundStream σ)
    (name : String) (raw : StreamPtr) (streams : Nat → σ) (ops : List Op) (p : SoundPlayer σ)
    (hrun : run_guarded pcm hw strm ops (create name raw streams) = some p)
    (hpaused : p.is_paused = true) : p.is_playing = true :=
  run_guarded_keeps_paused_playing pcm hw strm ops (create name raw streams) p
    (by intro h; simp [create] at h) hrun hpaused

/-- C9, amended, on the player of the examples: after `start()` and `pause()` it is paused
and playing. -/
theorem paused_implies_playing_witness :
    run_guarded goodPcm goodHw (tapeStream 8) [Op.start, Op.pause] (tapePlayer 10)
      = some (pause (startedTape 10)) ∧
      (pause (startedTape 10)).is_paused = true ∧
      (pause (startedTape 10)).is_playing = true :=
  ⟨rfl, rfl,
    paused_implies_playing goodPcm goodHw (tapeStream 8) DEFAULT_NAME (some 0)
      (fun _ => { pos := 0, total := 10 }) [Op.start, Op.pause] (pause (startedTape 10))
      rfl rfl⟩

end SoundPlayer

/-! ## Theorems: the write-retry loop -/

namespace SoundPlayer

variable {σ : Type}

/-- The write-retry loop on a player with an active stream is the iteration of
`write_pass` while frames are left. -/
theorem write_loop_succ (pcm : Pcm) (strm : SoundStream σ) (fuel : Nat) (p : SoundPlayer σ)
    (start frames : Int) (r : Nat) (hraw : p.raw_stream = some r) :
    write_loop pcm strm (fuel + 1) p start frames =
      if (write_pass pcm strm r p start frames).2.2 > 0 then
        write_loop pcm strm fuel (write_pass pcm strm r p start frames).1
          (write_pass pcm strm r p start frames).2.1 (write_pass pcm strm r p start frames).2.2
      else Outcome.done (write_pass pcm strm r p start frames) := by
  unfold write_pass
  generalize ha : pcm.writei p.pcm.writes.length start frames = a
  rw [write_loop]
  simp only [ha, hraw]
  by_cases hpos : a > 0
  · have hne : a ≠ -EPIPE := by unfold EPIPE; omega
    simp only [hpos, hne, if_true, if_false]
  · by_cases he : a = -EPIPE
    · subst he
      simp only [hpos, if_true, if_false]
    · simp only [hpos, he, if_true, if_false]

/-- One pass changes the log of the sink and nothing else of the player. -/
theorem write_pass_frame (pcm : Pcm) (strm : SoundStream σ) (r : Nat) (p : SoundPlayer σ)
    (start frames : Int) :
    (write_pass pcm strm r p start frames).1
      = { p with pcm := { p.pcm with
            writes := (write_pass pcm strm r p start frames).1.pcm.writes,
            prepares := (write_pass pcm strm r p start frames).1.pcm.prepares } } := rfl

/-- A write-retry loop that is over stays over with more fuel, with the same result. -/
theorem write_loop_mono (pcm : Pcm) (strm : SoundStream σ) (r : Nat) (fuel : Nat) :
    ∀ (p : SoundPlayer σ) (start frames : Int) (res : SoundPlayer σ × Int × Int),
      p.raw_stream = some r →
      write_loop pcm strm fuel p start frames = Outcome.done res →
      ∀ k, write_loop pcm strm (fuel + k) p start frames = Outcome.done res := by
  induction fuel with
  | zero =>
    intro p start frames res _ h
    simp [write_loop] at h
  | succ fuel ih =>
    intro p start frames res hraw h k
    have hk : fuel + 1 + k = (fuel + k) + 1 := by omega
    rw [hk, write_loop_succ pcm strm (fuel + k) p start frames r hraw]
    rw [write_loop_succ pcm strm fuel p start frames r hraw] at h
    by_cases hc : (write_pass pcm strm r p start frames).2.2 > 0
    · rw [if_pos hc] at h ⊢
      exact ih _ _ _ res (show (write_pass pcm strm r p start frames).1.raw_stream = some r from hraw) h k
    · rw [if_neg hc] at h ⊢
      exact h

/-- The write-retry loop changes the log of the sink (the answers of `writei`, the count
of `prepare()`) and nothing else of the player. -/
theorem write_loop_frame (pcm : Pcm) (strm : SoundStream σ) (r : Nat) (fuel : Nat) :
    ∀ (p p1 : SoundPlayer σ) (start frames s1 f1 : Int),
      p.raw_stream = some r →
      write_loop pcm strm fuel p start frames = Outcome.done (p1, s1, f1) →
      p1 = { p with pcm := { p.pcm with writes := p1.pcm.writes,
                                        prepares := p1.pcm.prepares } } := by
  induction fuel with
  | zero =>
    intro p p1 start frames s1 f1 _ h
    simp [write_loop] at h
  | succ fuel ih =>
    intro p p1 start frames s1 f1 hraw h
    rw [write_loop_succ pcm strm fuel p start frames r hraw] at h
    by_cases hc : (write_pass pcm strm r p start frames).2.2 > 0
    · rw [if_pos hc] at h
      have h2 := ih _ p1 _ _ s1 f1 (show (write_pass pcm strm r p start frames).1.raw_stream = some r from hraw) h
      rw [h2]
      rfl
    · rw [if_neg hc] at h
      simp only [Outcome.done.injEq] at h
      have h1 : (write_pass pcm strm r p start frames).1 = p1 := by rw [h]
      rw [← h1]
      rfl

/-- The write-retry loop with enough fuel, from any state of the measure
`(N - calls made) + frames left`: it ends with no frame left, and its log is the answers
of the sink to the calls it made. -/
theorem write_loop_finishes (pcm : Pcm) (strm : SoundStream σ) (r N : Nat)
    (hans : ∀ k st n, 0 < n →
      pcm.writei k st n = -EPIPE ∨ (0 < pcm.writei k st n ∧ pcm.writei k st n ≤ n))
    (hfin : ∀ k st n, N ≤ k → 0 < n → pcm.writei k st n ≠ -EPIPE) (m : Nat) :
    ∀ (p : SoundPlayer σ) (start frames : Int),
      p.raw_stream = some r → 0 < frames →
      (N - p.pcm.writes.length) + frames.toNat ≤ m →
      ∃ answers : List Int,
        write_loop pcm strm m p start frames
          = Outcome.done
              ({ p with pcm := { p.pcm with
                    writes := answers.reverse ++ p.pcm.writes,
                    prepares := p.pcm.prepares + answers.count (-EPIPE) } },
                start + frames * (strm.block_align (p.streams r) : Int), 0) ∧
        answers_from pcm (strm.block_align (p.streams r) : Int) answers
          p.pcm.writes.length start frames ∧
        (∀ a ∈ answers, 0 < a ∨ a = -EPIPE) ∧
        frames_written answers = frames := by
  induction m with
  | zero =>
    intro p start frames _ hpos hm
    omega
  | succ m ih =>
    intro p start frames hraw hpos hm
    rw [write_loop_succ pcm strm m p start frames r hraw]
    generalize ha : pcm.writei p.pcm.writes.length start frames = a
    rcases hans p.pcm.writes.length start frames hpos with he | ⟨hgt, hle⟩
    · -- an underrun: `prepare()` and one more pass
      rw [ha] at he
      subst he
      have hlen : p.pcm.writes.length < N := by
        by_contra hc
        exact hfin p.pcm.writes.length start frames (by omega) hpos ha
      have hn : ¬ (-EPIPE > 0) := by unfold EPIPE; omega
      have e1 : write_pass pcm strm r p start frames
          = ({ p with pcm := { p.pcm with writes := -EPIPE :: p.pcm.writes,
                                          prepares := p.pcm.prepares + 1 } },
              start, frames) := by
        simp only [write_pass, ha, hn, if_true, if_false]
      rw [e1]
      simp only [gt_iff_lt, hpos, if_true]
      obtain ⟨rest, hrun, htie, hall, hsum⟩ := ih
        { p with pcm := { p.pcm with writes := -EPIPE :: p.pcm.writes,
                                     prepares := p.pcm.prepares + 1 } }
        start frames hraw hpos (by simp only [List.length_cons]; omega)
      refine ⟨-EPIPE :: rest, ?_, ?_, ?_, ?_⟩
      · rw [hrun]
        simp only [List.reverse_cons, List.append_assoc, List.singleton_append,
          List.count_cons_self, Outcome.done.injEq, Prod.mk.injEq, and_true]
        congr 2
        omega
      · refine ⟨ha.symm, ?_⟩
        simp only [hn, if_false]
        exact htie
      · intro x hx
        rcases List.mem_cons.mp hx with hx | hx
        · right; exact hx
        · exact hall x hx
      · have hz : ¬ ((0 : Int) < -EPIPE) := by unfold EPIPE; omega
        unfold frames_written at hsum ⊢
        rw [List.filter_cons_of_neg (by simpa using hz)]
        exact hsum
    · -- frames written: the offset and the count move
      rw [ha] at hgt hle
      have hne : a ≠ -EPIPE := by unfold EPIPE; omega
      have e1 : write_pass pcm strm r p start frames
          = ({ p with pcm := { p.pcm with writes := a :: p.pcm.writes,
                                          prepares := p.pcm.prepares } },
              start + a * (strm.block_align (p.streams r) : Int), frames - a) := by
        simp only [write_pass, ha, gt_iff_lt, hgt, hne, if_true, if_false]
      rw [e1]
      have hc : List.count (-EPIPE) (a :: ([] : List Int)) = 0 := by
        simp [List.count_cons, List.count_nil, hne]
      by_cases hrest : 0 < frames - a
      · simp only [gt_iff_lt, hrest, if_true]
        obtain ⟨rest, hrun, htie, hall, hsum⟩ := ih
          { p with pcm := { p.pcm with writes := a :: p.pcm.writes,
                                       prepares := p.pcm.prepares } }
          (start + a * (strm.block_align (p.streams r) : Int)) (frames - a) hraw hrest
          (by simp only [List.length_cons]; omega)
        refine ⟨a :: rest, ?_, ?_, ?_, ?_⟩
        · rw [hrun]
          have hcr : List.count (-EPIPE) (a :: rest) = List.count (-EPIPE) rest := by
            rw [List.count_cons_of_ne (Ne.symm hne)]
          simp only [hcr, List.reverse_cons, List.append_assoc, List.singleton_append]
          congr 2
          rw [Prod.mk.injEq]
          exact ⟨by ring, rfl⟩
        · refine ⟨ha.symm, ?_⟩
          simp only [gt_iff_lt, hgt, if_true]
          exact htie
        · intro x hx
          rcases List.mem_cons.mp hx with hx | hx
          · left; rw [hx]; exact hgt
          · exact hall x hx
        · unfold frames_written at hsum ⊢
          rw [List.filter_cons_of_pos (by simpa using hgt), List.sum_cons, hsum]
          ring
      · have hfe : frames = a := by omega
        simp only [gt_iff_lt, hrest, if_false]
        refine ⟨[a], ?_, ?_, ?_, ?_⟩
        · simp only [hc, Nat.add_zero, List.reverse_singleton, List.singleton_append, hfe,
            sub_self]
        · exact ⟨ha.symm, trivial⟩
        · intro x hx
          left
          have : x = a := by simpa using hx
          rw [this]; exact hgt
        · unfold frames_written
          rw [List.filter_cons_of_pos (by simpa using hgt)]
          simp [hfe]

/-- C8 as stated fails: a sequence of positive frame counts with no underrun at all need
not sum to the full frame count.  With 4 frames to write and a sink that answers 7 to the
call, the loop ends after that one call with -3 frames left, the positive answers sum to
7 and not 4, and the offset is 14, past the 8 bytes of the chunk. -/
theorem write_loop_overrun :
    (0 : Int) < overPcm.writei 0 0 4 ∧
      write_loop overPcm (tapeStream 8) 3 (startedTape 10) 0 4
        = Outcome.done ({ startedTape 10 with pcm := { (startedTape 10).pcm with
              writes := [7] } }, 14, -3) ∧
      frames_written [7] = 7 ∧ frames_written [7] ≠ 4 := by
  refine ⟨by decide, rfl, by decide, by decide⟩

/-- C8, amended: in the write-retry loop of one pass, started at the offset `start` with a
full frame count `F`, let every answer of `writei` to a request the loop can make (the
full count, or a positive rest `n`) be either the underrun code `-EPIPE` or a positive
count of at most the `n` frames requested, and let no underrun come after the first `N`
calls.  Then the loop ends (with any fuel from `fuel0` on) with no frame left.  Its log
grew by `answers`, which are what the sink answered to the successive calls, each made at
the offset advanced by `frame * block_align` for every positive answer before it and not
advanced by an underrun, for the frames then left (`answers_from`), at least one call
being made; they are positive
counts and underrun codes, the positive ones sum to `F`, the final offset is
`start + F * block_align`, `prepare()` was called once per underrun, and nothing but the
log of the sink has changed: the last error message is untouched. -/
theorem write_loop_recovers (pcm : Pcm) (strm : SoundStream σ) (r N : Nat)
    (p : SoundPlayer σ) (start : Int) (F : Nat)
    (hraw : p.raw_stream = some r)
    (hans : ∀ k st n, (0 < n ∨ n = (F : Int)) →
      pcm.writei k st n = -EPIPE ∨ (0 < pcm.writei k st n ∧ pcm.writei k st n ≤ n))
    (hfin : ∀ k st n, N ≤ k → 0 < n → pcm.writei k st n ≠ -EPIPE) :
    ∃ (answers : List Int) (fuel0 : Nat) (p1 : SoundPlayer σ),
      (∀ fuel, fuel0 ≤ fuel →
        write_loop pcm strm fuel p start F
          = Outcome.done (p1, start + (F : Int) * (strm.block_align (p.streams r) : Int), 0)) ∧
      p1 = { p with pcm := { p.pcm with
                writes := answers.reverse ++ p.pcm.writes,
                prepares := p.pcm.prepares + answers.count (-EPIPE) } } ∧
      answers ≠ [] ∧
      answers_from pcm (strm.block_align (p.streams r) : Int) answers
        p.pcm.writes.length start F ∧
      (∀ a ∈ answers, 0 < a ∨ a = -EPIPE) ∧
      frames_written answers = F ∧
      p1.pcm.prepares = p.pcm.prepares + answers.count (-EPIPE) ∧
      p1.error_msg = p.error_msg := by
  by_cases hF : 0 < (F : Int)
  · obtain ⟨answers, hrun, htie, hall, hsum⟩ :=
      write_loop_finishes pcm strm r N (fun k st n hn => hans k st n (Or.inl hn)) hfin
        ((N - p.pcm.writes.length) + (F : Int).toNat) p start F hraw hF (le_refl _)
    have hne : answers ≠ [] := by
      intro he
      rw [he] at hsum
      simp [frames_written] at hsum
      omega
    refine ⟨answers, (N - p.pcm.writes.length) + (F : Int).toNat, _, ?_, rfl, hne, htie,
      hall, hsum, rfl, rfl⟩
    intro fuel hfuel
    obtain ⟨k, rfl⟩ := Nat.exists_eq_add_of_le hfuel
    exact write_loop_mono pcm strm r _ p start F _ hraw hrun k
  · -- no frame to write: the one pass of the `do ... while` gets an underrun
    have hF0 : (F : Int) = 0 := by omega
    have ha : pcm.writei p.pcm.writes.length start (F : Int) = -EPIPE := by
      rcases hans p.pcm.writes.length start (F : Int) (Or.inr rfl) with he | ⟨h1, h2⟩
      · exact he
      · omega
    have hn : ¬ (-EPIPE > 0) := by unfold EPIPE; omega
    have e1 : write_pass pcm strm r p start (F : Int)
        = ({ p with pcm := { p.pcm with writes := -EPIPE :: p.pcm.writes,
                                        prepares := p.pcm.prepares + 1 } },
            start, (F : Int)) := by
      simp only [write_pass, ha, hn, if_true, if_false]
    have h1 : write_loop pcm strm 1 p start F
        = Outcome.done ({ p with pcm := { p.pcm with writes := -EPIPE :: p.pcm.writes,
                                                      prepares := p.pcm.prepares + 1 } },
            start, (F : Int)) := by
      rw [write_loop_succ pcm strm 0 p start F r hraw, e1]
      simp only [gt_iff_lt, hF, if_false]
    refine ⟨[-EPIPE], 1, _, ?_, rfl, by simp, ⟨ha.symm, trivial⟩, ?_, ?_, rfl, rfl⟩
    · intro fuel hfuel
      obtain ⟨k, rfl⟩ := Nat.exists_eq_add_of_le hfuel
      rw [write_loop_mono pcm strm r 1 p start F _ hraw h1 k]
      simp only [hF0, zero_mul, add_zero, List.reverse_singleton, List.singleton_append,
        List.count_cons_self, List.count_nil]
    · intro a hm
      right
      simpa using hm
    · unfold frames_written
      have hz : ¬ ((0 : Int) < -EPIPE) := by unfold EPIPE; omega
      rw [List.filter_cons_of_neg (by simpa using hz)]
      simp [hF0]

/-- C8, amended, on the sink whose first `writei` reports an underrun and which then writes
all it is asked to: with 4 frames to write, the loop is over after two calls of `writei`,
which answered `-EPIPE` and 4, `prepare()` was called once more than before, the offset
is 8 (4 frames of 2 bytes) and the last error message is still "Success". -/
theorem write_loop_recovers_witness :
    write_loop underrunPcm (tapeStream 8) 2 (startedTape 10) 0 4
        = Outcome.done ({ startedTape 10 with pcm := { (startedTape 10).pcm with
              writes := [4, -EPIPE], prepares := 1 } }, 8, 0) ∧
      ∃ (answers : List Int) (fuel0 : Nat) (p1 : SoundPlayer Tape),
        (∀ fuel, fuel0 ≤ fuel →
          write_loop underrunPcm (tapeStream 8) fuel (startedTape 10) 0 (4 : Nat)
            = Outcome.done (p1,
                0 + ((4 : Nat) : Int)
                  * ((tapeStream 8).block_align ((startedTape 10).streams 0) : Int), 0)) ∧
        p1 = { startedTape 10 with pcm := { (startedTape 10).pcm with
                writes := answers.reverse ++ (startedTape 10).pcm.writes,
                prepares := (startedTape 10).pcm.prepares + answers.count (-EPIPE) } } ∧
        answers ≠ [] ∧
        answers_from underrunPcm ((tapeStream 8).block_align ((startedTape 10).streams 0) : Int)
          answers (startedTape 10).pcm.writes.length 0 (4 : Nat) ∧
        (∀ a ∈ answers, 0 < a ∨ a = -EPIPE) ∧
        frames_written answers = (4 : Nat) ∧
        p1.pcm.prepares = (startedTape 10).pcm.prepares + answers.count (-EPIPE) ∧
        p1.error_msg = (startedTape 10).error_msg :=
  ⟨rfl,
    write_loop_recovers underrunPcm (tapeStream 8) 0 1 (startedTape 10) 0 4 rfl
      (by
        intro k st n hn
        have hpos : 0 < n := by
          rcases hn with h | h
          · exact h
          · rw [h]; decide
        by_cases hk : k = 0
        · left; simp [underrunPcm, hk]
        · right; simp [underrunPcm, goodPcm, hk, hpos])
      (by
        intro k st n hk hn
        have hk0 : k ≠ 0 := by omega
        simp only [underrunPcm, goodPcm, hk0, if_false]
        unfold EPIPE
        omega)⟩

end SoundPlayer

/-! ## Theorems: the playback loop and the background task -/

namespace SoundPlayer

variable {σ : Type}

/-- An operation of the controlling thread leaves the active stream pointer and the log of
the sink as they are. -/
theorem ctl_frame (strm : SoundStream σ) (op : CtlOp) (p : SoundPlayer σ) :
    (ctl strm op p).raw_stream = p.raw_stream ∧ (ctl strm op p).pcm = p.pcm := by
  cases op with
  | idle => exact ⟨rfl, rfl⟩
  | stop => exact ⟨rfl, rfl⟩
  | pause =>
    simp only [ctl, pause]
    split <;> exact ⟨rfl, rfl⟩
  | resume =>
    simp only [ctl, resume]
    split <;> exact ⟨rfl, rfl⟩
  | setPlayPos pos =>
    simp only [ctl, setPlayPos, pause, resume]
    cases hraw : p.raw_stream <;> simp [hraw]

/-- The read and write of one pass leave the active stream pointer, the two flags and the
counts of `open` and `close` as they are. -/
theorem play_chunk_frame (pcm : Pcm) (strm : SoundStream σ) (wfuel size : Nat) (r : Nat)
    (p p2 : SoundPlayer σ) (hraw : p.raw_stream = some r)
    (h : play_chunk pcm strm wfuel size p = Outcome.done p2) :
    p2.raw_stream = some r ∧ p2.player_playing = p.player_playing ∧
      p2.player_paused = p.player_paused ∧ p2.pcm.opens = p.pcm.opens ∧
      p2.pcm.closes = p.pcm.closes := by
  unfold play_chunk at h
  simp only [hraw] at h
  split_ifs at h with hfull
  · split at h
    · rename_i p3 s3 f3 hw
      simp only [Outcome.done.injEq] at h
      subst h
      have hfr := write_loop_frame pcm strm r wfuel _ p3 _ _ s3 f3 rfl hw
      rw [hfr]
      exact ⟨rfl, rfl, rfl, rfl, rfl⟩
    · exact absurd h (by simp)
    · exact absurd h (by simp)
  · simp only [Outcome.done.injEq] at h
    subst h
    exact ⟨rfl, rfl, rfl, rfl, rfl⟩

/-- The playback loop leaves the active stream pointer and the counts of `open` and
`close` as they are: it never opens or closes the sink. -/
theorem play_loop_frame (pcm : Pcm) (strm : SoundStream σ) (sched : Nat → CtlOp)
    (wfuel size : Nat) (r : Nat) (fuel : Nat) :
    ∀ (i : Nat) (p p1 : SoundPlayer σ) (n : Nat), p.raw_stream = some r →
      play_loop pcm strm sched wfuel size fuel i p = Outcome.done (p1, n) →
      p1.raw_stream = some r ∧ p1.pcm.opens = p.pcm.opens ∧
        p1.pcm.closes = p.pcm.closes := by
  induction fuel with
  | zero =>
    intro i p p1 n _ h
    simp [play_loop] at h
  | succ fuel ih =>
    intro i p p1 n hraw h
    obtain ⟨hc1, hc2⟩ := ctl_frame strm (sched i) p
    rw [play_loop] at h
    generalize ctl strm (sched i) p = pc at h hc1 hc2
    rw [hraw] at hc1
    split_ifs at h with h1 h2
    · simp only [Outcome.done.injEq, Prod.mk.injEq] at h
      obtain ⟨rfl, -⟩ := h
      exact ⟨hc1, by rw [hc2], by rw [hc2]⟩
    · obtain ⟨g1, g2, g3⟩ := ih (i + 1) pc p1 n hc1 h
      exact ⟨g1, by rw [g2, hc2], by rw [g3, hc2]⟩
    · split at h
      · exact absurd h (by simp)
      · exact absurd h (by simp)
      · rename_i p2 hchunk
        obtain ⟨k1, -, -, k4, k5⟩ := play_chunk_frame pcm strm wfuel size r pc p2 hc1 hchunk
        simp only [k1] at h
        split_ifs at h with h3
        · simp only [Outcome.done.injEq, Prod.mk.injEq] at h
          obtain ⟨rfl, -⟩ := h
          exact ⟨k1, by rw [k4, hc2], by rw [k5, hc2]⟩
        · obtain ⟨g1, g2, g3⟩ := ih (i + 1) p2 p1 n k1 h
          exact ⟨g1, by rw [g2, k4, hc2], by rw [g3, k5, hc2]⟩

/-- When `generateHwParams` returns true it has changed nothing. -/
theorem generateHwParams_true (hw : HardwareParams) (strm : SoundStream σ)
    (p p2 : SoundPlayer σ) (h : generateHwParams hw strm p = (true, p2)) : p2 = p := by
  unfold generateHwParams at h
  split at h
  · simp at h
  · simp only at h
    split_ifs at h <;>
      simp only [Prod.mk.injEq, Bool.false_eq_true, false_and, true_and] at h <;>
      exact h.symm

/-- A `start()` that returns true found the player stopped with an active stream, called
`open` once and `close` never, set the playing flag and spawned the task. -/
theorem start_true (pcm : Pcm) (hw : HardwareParams) (strm : SoundStream σ)
    (p0 p : SoundPlayer σ) (h : start pcm hw strm p0 = some (true, p)) :
    p0.player_playing = false ∧ p.raw_stream = p0.raw_stream ∧ p0.raw_stream ≠ none ∧
      p.player_playing = true ∧ p.player_paused = p0.player_paused ∧
      p.pcm.opens = p0.pcm.opens + 1 ∧ p.pcm.closes = p0.pcm.closes ∧
      p.threads_spawned = p0.threads_spawned + 1 ∧ p.thread_running = true := by
  by_cases h1 : p0.player_playing = true
  · simp [start, h1] at h
  by_cases h2 : p0.raw_stream = none
  · simp [start, h1, h2] at h
  by_cases h3 : pcm.open_ok p0.pcm.opens p0.player_name = true
  · simp only [start, h1, h2, h3, if_false, Bool.not_true, Bool.false_eq_true] at h
    split at h
    · simp at h
    · rename_i p2 heq
      have hfr := generateHwParams_true hw strm _ p2 heq
      split_ifs at h
      simp only [Option.some.injEq, Prod.mk.injEq, true_and] at h
      subst h
      subst hfr
      refine ⟨by simpa using h1, rfl, h2, rfl, rfl, rfl, rfl, rfl, rfl⟩
  · simp only [Bool.not_eq_true] at h3
    simp [start, h1, h2, h3] at h

/-- C10: after a `start()` that returned true, whenever the background task ends (its
`prepare()` failed, or its loop was left because `stop()` cleared the playing flag or by
the break at the end of the stream), `close()` has been called exactly once and `open()`
exactly once since before the `start()`, and the playing and paused flags are both
false. -/
theorem task_closes_once (pcm : Pcm) (hw : HardwareParams) (strm : SoundStream σ)
    (sched : Nat → CtlOp) (wfuel fuel : Nat) (p0 p p1 : SoundPlayer σ) (n : Nat)
    (hstart : start pcm hw strm p0 = some (true, p))
    (hend : play_thread pcm strm sched wfuel fuel p = Outcome.done (p1, n)) :
    p.pcm.opens = p0.pcm.opens + 1 ∧ p.pcm.closes = p0.pcm.closes ∧
      p1.pcm.opens = p0.pcm.opens + 1 ∧ p1.pcm.closes = p0.pcm.closes + 1 ∧
      p1.is_playing = false ∧ p1.is_paused = false := by
  obtain ⟨-, hr1, hr2, -, -, ho, hc, -, -⟩ := start_true pcm hw strm p0 p hstart
  refine ⟨ho, hc, ?_⟩
  rw [← hr1] at hr2
  obtain ⟨r, hr⟩ := Option.ne_none_iff_exists'.mp hr2
  unfold play_thread at hend
  simp only [hr] at hend
  split_ifs at hend with hprep
  · split at hend
    · rename_i p2 m hloop
      simp only [Outcome.done.injEq, Prod.mk.injEq] at hend
      obtain ⟨rfl, -⟩ := hend
      obtain ⟨-, g2, g3⟩ := play_loop_frame pcm strm sched wfuel _ r fuel 0 _ p2 m rfl hloop
      refine ⟨?_, ?_, rfl, rfl⟩
      · show p2.pcm.opens = p0.pcm.opens + 1
        rw [g2]; exact ho
      · show p2.pcm.closes + 1 = p0.pcm.closes + 1
        rw [g3]; exact congrArg (· + 1) hc
    · exact absurd hend (by simp)
    · exact absurd hend (by simp)
  · simp only [Outcome.done.injEq, Prod.mk.injEq] at hend
    obtain ⟨rfl, -⟩ := hend
    exact ⟨ho, congrArg (· + 1) hc, rfl, rfl⟩

/-- For a total of at least one second, `total() - 1` does not wrap. -/
theorem total_minus_one_pos (T : Nat) (h1 : 1 ≤ T) (h2 : T < U64) :
    total_minus_one T = T - 1 := by
  unfold total_minus_one
  unfold U64 at *
  omega

/-- For a total of 0 seconds, `total() - 1` wraps to `2 ^ 64 - 1`. -/
theorem total_minus_one_zero : total_minus_one 0 = 18446744073709551615 := by
  decide

/-- On a sink that accepts every write (a request of `n > 0` frames is answered by a
positive count of at most `n`), the write-retry loop ends, with the same result for any
fuel above the frame count. -/
theorem write_loop_accepts (pcm : Pcm) (strm : SoundStream σ) (r : Nat)
    (hacc : ∀ k st n, 0 < n → 0 < pcm.writei k st n ∧ pcm.writei k st n ≤ n)
    (p : SoundPlayer σ) (start frames : Int) (hraw : p.raw_stream = some r) :
    ∃ res : SoundPlayer σ × Int × Int, ∀ wfuel, frames.toNat + 1 ≤ wfuel →
      write_loop pcm strm wfuel p start frames = Outcome.done res := by
  by_cases hpos : 0 < frames
  · have hans : ∀ k st n, 0 < n →
        pcm.writei k st n = -EPIPE ∨ (0 < pcm.writei k st n ∧ pcm.writei k st n ≤ n) :=
      fun k st n hn => Or.inr (hacc k st n hn)
    have hfin : ∀ k st n, 0 ≤ k → 0 < n → pcm.writei k st n ≠ -EPIPE := by
      intro k st n _ hn he
      have := (hacc k st n hn).1
      rw [he] at this
      unfold EPIPE at this
      omega
    obtain ⟨rs, hrun, -, -⟩ := write_loop_finishes pcm strm r 0 hans hfin
      ((0 - p.pcm.writes.length) + frames.toNat) p start frames hraw hpos (le_refl _)
    obtain ⟨res, hrun⟩ : ∃ res, write_loop pcm strm ((0 - p.pcm.writes.length) + frames.toNat)
        p start frames = Outcome.done res := ⟨_, hrun⟩
    refine ⟨res, ?_⟩
    intro wfuel hw
    have hle : (0 - p.pcm.writes.length) + frames.toNat ≤ wfuel := by omega
    obtain ⟨k, rfl⟩ := Nat.exists_eq_add_of_le hle
    exact write_loop_mono pcm strm r _ p start frames _ hraw hrun k
  · refine ⟨write_pass pcm strm r p start frames, ?_⟩
    intro wfuel hw
    obtain ⟨k, rfl⟩ := Nat.exists_eq_add_of_le hw
    have h1 : write_loop pcm strm 1 p start frames
        = Outcome.done (write_pass pcm strm r p start frames) := by
      rw [write_loop_succ pcm strm 0 p start frames r hraw]
      have hle : ¬ ((write_pass pcm strm r p start frames).2.2 > 0) := by
        unfold write_pass
        simp only
        split_ifs <;> omega
      rw [if_neg hle]
    have h2 := write_loop_mono pcm strm r 1 p start frames _ hraw h1 (frames.toNat + k)
    have e : frames.toNat + 1 + k = 1 + (frames.toNat + k) := by omega
    rw [e]
    exact h2

/-- On a sink that accepts every write, a full read is followed by a write-retry loop that
ends: the pass leaves the pointer and the flags as they are and the stream as the read
left it. -/
theorem play_chunk_full (pcm : Pcm) (strm : SoundStream σ) (r size : Nat)
    (hacc : ∀ k st n, 0 < n → 0 < pcm.writei k st n ∧ pcm.writei k st n ≤ n)
    (p : SoundPlayer σ) (hraw : p.raw_stream = some r)
    (hfull : (strm.read (p.streams r) size).1 = size) :
    ∃ p2 : SoundPlayer σ,
      (∀ wfuel, (pcm.bytes_to_frames size).toNat + 1 ≤ wfuel →
        play_chunk pcm strm wfuel size p = Outcome.done p2) ∧
      p2.raw_stream = some r ∧ p2.player_playing = p.player_playing ∧
      p2.player_paused = p.player_paused ∧
      p2.streams r = (strm.read (p.streams r) size).2 ∧
      p2.pcm.closes = p.pcm.closes := by
  obtain ⟨⟨p2, s2, f2⟩, hres⟩ := write_loop_accepts pcm strm r hacc
    { p with streams := Function.update p.streams r (strm.read (p.streams r) size).2 }
    0 (pcm.bytes_to_frames size) hraw
  have hfr := write_loop_frame pcm strm r _
    { p with streams := Function.update p.streams r (strm.read (p.streams r) size).2 }
    p2 _ _ s2 f2 hraw (hres _ (le_refl _))
  refine ⟨p2, ?_, ?_, ?_, ?_, ?_, ?_⟩
  · intro wfuel hw
    unfold play_chunk
    have h := hres wfuel hw
    simp only [hraw] at h
    simp only [hraw, hfull, if_true, h]
  · rw [hfr]; exact hraw
  · rw [hfr]
  · rw [hfr]
  · rw [hfr]; simp
  · rw [hfr]

/-- The playback loop on a stream that delivers one second per full read, with a sink that
accepts every write and a controlling thread that does nothing: from the position `k`,
with `d` passes to go after the next one, the loop is left by the break after `d + 1`
passes, at the position `max (T - 1) 1`. -/
theorem play_loop_counts (pcm : Pcm) (strm : SoundStream σ) (r T size : Nat)
    (hT1 : 1 ≤ T) (hT64 : T < U64)
    (hread : ∀ s, strm.total s = T → strm.pos s < T →
      (strm.read s size).1 = size ∧ strm.pos (strm.read s size).2 = strm.pos s + 1 ∧
        strm.total (strm.read s size).2 = T)
    (hacc : ∀ k st n, 0 < n → 0 < pcm.writei k st n ∧ pcm.writei k st n ≤ n) (d : Nat) :
    ∀ (i k : Nat) (p : SoundPlayer σ), p.raw_stream = some r →
      p.player_playing = true → p.player_paused = false →
      strm.total (p.streams r) = T → strm.pos (p.streams r) = k →
      k + 1 + d = max (T - 1) 1 →
      ∃ p1 : SoundPlayer σ,
        (∀ wfuel fuel, (pcm.bytes_to_frames size).toNat + 1 ≤ wfuel → d + 1 ≤ fuel →
          play_loop pcm strm (fun _ => CtlOp.idle) wfuel size fuel i p
            = Outcome.done (p1, i + d + 1)) ∧
        p1.raw_stream = some r ∧ p1.player_playing = true ∧ p1.player_paused = false ∧
        strm.pos (p1.streams r) = max (T - 1) 1 ∧ p1.pcm.closes = p.pcm.closes := by
  induction d with
  | zero =>
    intro i k p hraw hplay hpause htot hpos hk
    have hkT : strm.pos (p.streams r) < T := by omega
    obtain ⟨hfull, hpos2, htot2⟩ := hread (p.streams r) htot hkT
    obtain ⟨p2, hchunk, hraw2, hplay2, hpause2, hstr2, hcl2⟩ :=
      play_chunk_full pcm strm r size hacc p hraw hfull
    refine ⟨p2, ?_, hraw2, by rw [hplay2, hplay], by rw [hpause2, hpause], ?_, hcl2⟩
    · intro wfuel fuel hw hf
      obtain ⟨f, rfl⟩ := Nat.exists_eq_add_of_le hf
      have e : 0 + 1 + f = f + 1 := by omega
      rw [e, play_loop]
      simp only [ctl, is_playing, is_paused, hplay, hpause, Bool.not_true,
        Bool.false_eq_true, if_false, hchunk wfuel hw, hraw2, hstr2, htot2, hpos2,
        total_minus_one_pos T hT1 hT64]
      rw [if_pos (by omega)]
    · rw [hstr2, hpos2]; omega
  | succ d ih =>
    intro i k p hraw hplay hpause htot hpos hk
    have hkT : strm.pos (p.streams r) < T := by omega
    obtain ⟨hfull, hpos2, htot2⟩ := hread (p.streams r) htot hkT
    obtain ⟨p2, hchunk, hraw2, hplay2, hpause2, hstr2, hcl2⟩ :=
      play_chunk_full pcm strm r size hacc p hraw hfull
    obtain ⟨p1, hrun, g1, g2, g3, g4, g5⟩ := ih (i + 1) (k + 1) p2 hraw2
      (by rw [hplay2, hplay]) (by rw [hpause2, hpause]) (by rw [hstr2, htot2])
      (by rw [hstr2, hpos2, hpos]) (by omega)
    refine ⟨p1, ?_, g1, g2, g3, g4, by rw [g5, hcl2]⟩
    intro wfuel fuel hw hf
    obtain ⟨f, rfl⟩ := Nat.exists_eq_add_of_le hf
    have e : d + 1 + 1 + f = (d + 1 + f) + 1 := by omega
    rw [e, play_loop]
    simp only [ctl, is_playing, is_paused, hplay, hpause, Bool.not_true,
      Bool.false_eq_true, if_false, hchunk wfuel hw, hraw2, hstr2, htot2, hpos2,
      total_minus_one_pos T hT1 hT64]
    rw [if_neg (by omega), hrun wfuel (d + 1 + f) hw (by omega)]
    have e2 : i + 1 + d + 1 = i + (d + 1) + 1 := by omega
    rw [e2]

/-- C7, amended: let the active stream have a total of `T` seconds with `1 ≤ T < 2 ^ 64`,
stand at position 0, and give on every read before its end a full chunk that advances it
by one second; let `prepare()` succeed and the sink accept every write; let the player be
playing and not paused and the controlling thread do nothing.  Then the background task
ends, for any fuel from `fuel0` on, after `max (T - 1) 1` passes of its loop, the first
pass after which the position (then `max (T - 1) 1`) is at least `T - 1`; afterwards
`is_playing()` and `is_paused()` are false and the sink has been closed once. -/
theorem task_ends_near_total (pcm : Pcm) (strm : SoundStream σ) (p : SoundPlayer σ)
    (r T : Nat) (hraw : p.raw_stream = some r)
    (hplay : p.player_playing = true) (hpause : p.player_paused = false)
    (hT1 : 1 ≤ T) (hT64 : T < U64)
    (hprep : pcm.prepare_ok p.pcm.prepares = true)
    (htot : strm.total (p.streams r) = T) (hpos : strm.pos (p.streams r) = 0)
    (hread : ∀ s, strm.total s = T → strm.pos s < T →
      (strm.read s (strm.byte_rate (p.streams r))).1 = strm.byte_rate (p.streams r) ∧
        strm.pos (strm.read s (strm.byte_rate (p.streams r))).2 = strm.pos s + 1 ∧
        strm.total (strm.read s (strm.byte_rate (p.streams r))).2 = T)
    (hacc : ∀ k st n, 0 < n → 0 < pcm.writei k st n ∧ pcm.writei k st n ≤ n) :
    ∃ (fuel0 : Nat) (p1 : SoundPlayer σ),
      (∀ wfuel fuel, fuel0 ≤ wfuel → fuel0 ≤ fuel →
        play_thread pcm strm (fun _ => CtlOp.idle) wfuel fuel p
          = Outcome.done (p1, max (T - 1) 1)) ∧
      p1.is_playing = false ∧ p1.is_paused = false ∧
      strm.pos (p1.streams r) = max (T - 1) 1 ∧
      T - 1 ≤ strm.pos (p1.streams r) ∧
      (∀ j, 1 ≤ j → T - 1 ≤ j → max (T - 1) 1 ≤ j) ∧
      p1.pcm.closes = p.pcm.closes + 1 := by
  obtain ⟨p2, hrun, -, -, -, g4, g5⟩ :=
    play_loop_counts pcm strm r T (strm.byte_rate (p.streams r)) hT1 hT64 hread hacc
      (max (T - 1) 1 - 1) 0 0
      { p with pcm := { p.pcm with prepares := p.pcm.prepares + 1 } }
      hraw hplay hpause htot hpos (by omega)
  refine ⟨max ((pcm.bytes_to_frames (strm.byte_rate (p.streams r))).toNat + 1) (max (T - 1) 1),
    task_exit p2, ?_, rfl, rfl, g4, ?_, ?_, ?_⟩
  · intro wfuel fuel hw hf
    have h := hrun wfuel fuel (by omega) (by omega)
    have e : 0 + (max (T - 1) 1 - 1) + 1 = max (T - 1) 1 := by omega
    rw [e] at h
    unfold play_thread
    simp only [hraw, hprep, if_true] at h ⊢
    simp only [h]
  · show T - 1 ≤ strm.pos (p2.streams r)
    rw [g4]; omega
  · intro j h1 h2
    omega
  · show p2.pcm.closes + 1 = p.pcm.closes + 1
    rw [g5]

/-- C7, amended, on the tape of 10 seconds: the task ends after 9 passes, at position 9. -/
theorem task_ends_near_total_witness :
    ∃ (fuel0 : Nat) (p1 : SoundPlayer Tape),
      (∀ wfuel fuel, fuel0 ≤ wfuel → fuel0 ≤ fuel →
        play_thread goodPcm (tapeStream 8) (fun _ => CtlOp.idle) wfuel fuel (startedTape 10)
          = Outcome.done (p1, max (10 - 1) 1)) ∧
      p1.is_playing = false ∧ p1.is_paused = false ∧
      (tapeStream 8).pos (p1.streams 0) = max (10 - 1) 1 ∧
      10 - 1 ≤ (tapeStream 8).pos (p1.streams 0) ∧
      (∀ j, 1 ≤ j → 10 - 1 ≤ j → max (10 - 1) 1 ≤ j) ∧
      p1.pcm.closes = (startedTape 10).pcm.closes + 1 :=
  task_ends_near_total goodPcm (tapeStream 8) (startedTape 10) 0 10 rfl rfl rfl
    (by decide) (by decide) rfl rfl rfl
    (by
      intro s htot hpos
      have h1 : s.total = 10 := htot
      have h2 : s.pos < 10 := hpos
      have hc : s.pos * 8 + 8 ≤ s.total * 8 := by omega
      simp only [tapeStream, hc, if_true]
      refine ⟨?_, ?_, ?_⟩ <;> trivial)
    (by
      intro k st n hn
      simp [goodPcm, hn])

/-- On the tape of 0 seconds the playback loop never ends: the read gives no byte, the
position stays 0 and `total() - 1` has wrapped to `2 ^ 64 - 1`. -/
theorem play_loop_empty_tape (wfuel fuel : Nat) :
    ∀ i, play_loop goodPcm (tapeStream 8) (fun _ => CtlOp.idle) wfuel 8 fuel i
      { startedTape 0 with pcm := { (startedTape 0).pcm with prepares := 1 } }
      = Outcome.looping := by
  induction fuel with
  | zero =>
    intro i
    rfl
  | succ fuel ih =>
    intro i
    rw [play_loop]
    have hchunk : play_chunk goodPcm (tapeStream 8) wfuel 8
        { startedTape 0 with pcm := { (startedTape 0).pcm with prepares := 1 } }
        = Outcome.done
            { startedTape 0 with pcm := { (startedTape 0).pcm with prepares := 1 } } := by
      simp [play_chunk, startedTape, tapePlayer, create, tapeStream]
    simp only [ctl, hchunk]
    exact ih (i + 1)

/-- C7 as stated fails at two inputs.  With a sink whose `prepare()` fails, the task on
the tape of 10 seconds ends without a pass of the loop, at position 0 and not 9.  On the
tape of 0 seconds, with the sink that accepts every write, the task never ends: no
amount of fuel brings it out of the loop. -/
theorem task_not_always_near_total :
    (∀ wfuel fuel,
      report (play_thread unpreparedPcm (tapeStream 8) (fun _ => CtlOp.idle) wfuel fuel
        (startedTape 10)) = some (0, 0, false, false, 1, 1)) ∧
    (∀ wfuel fuel,
      play_thread goodPcm (tapeStream 8) (fun _ => CtlOp.idle) wfuel fuel (startedTape 0)
        = Outcome.looping) := by
  refine ⟨fun _ _ => rfl, ?_⟩
  intro wfuel fuel
  have h := play_loop_empty_tape wfuel fuel 0
  unfold play_thread
  simp only [startedTape, tapePlayer, create, goodPcm, tapeStream, if_true] at h ⊢
  simp only [h]

/-- C10 on the player of the examples, for each way out of the loop: `prepare()` failing,
`stop()` before pass 3, and the break at the end of the stream. -/
theorem task_closes_once_witness :
    report (play_thread unpreparedPcm (tapeStream 8) (fun _ => CtlOp.idle) 5 20
        (startedTape 10)) = some (0, 0, false, false, 1, 1) ∧
      report (play_thread goodPcm (tapeStream 8) (stopAt 3) 5 20 (startedTape 10))
        = some (3, 3, false, false, 1, 1) ∧
      report (play_thread goodPcm (tapeStream 8) (fun _ => CtlOp.idle) 5 20 (startedTape 10))
        = some (9, 9, false, false, 1, 1) ∧
      ∃ (p1 : SoundPlayer Tape) (n : Nat),
        play_thread goodPcm (tapeStream 8) (stopAt 3) 5 20 (startedTape 10)
          = Outcome.done (p1, n) ∧
        (startedTape 10).pcm.opens = (tapePlayer 10).pcm.opens + 1 ∧
        (startedTape 10).pcm.closes = (tapePlayer 10).pcm.closes ∧
        p1.pcm.opens = (tapePlayer 10).pcm.opens + 1 ∧
        p1.pcm.closes = (tapePlayer 10).pcm.closes + 1 ∧
        p1.is_playing = false ∧ p1.is_paused = false :=
  ⟨rfl, rfl, rfl, _, _, rfl,
    task_closes_once goodPcm goodHw (tapeStream 8) (stopAt 3) 5 20 (tapePlayer 10)
      (startedTape 10) _ _ (start_tapePlayer goodPcm 10 rfl) rfl⟩

end SoundPlayer

end SoundManager
